import Mathlib

/-!
Shallow embedding of the IoT telemetry/command-relay server
(`src/unnamed/part_000`, with the older variant `src/app.js` embedded where
it differs).  JS `Map`s are modelled as association lists with unique keys,
`Date.now()` instants as `Nat`, HTTP status codes as `Nat`, and the Mongo
collections as in-memory lists; the single atomic `findOneAndUpdate` used by
the consume-poll is modelled as one atomic step on the command store.
-/

namespace IotServer

/-- Opaque command payload (`mongoose.Schema.Types.Mixed` in the source). -/
abbrev Params := String

/-- A temperature sample (`TemperatureSchema` in the source). -/
structure Sample where
  device_unique_id : String
  value : Int
  fan : Int
  mode : Option String
  timestamp : Nat
deriving Repr, DecidableEq

/-- A mailbox entry (`DeviceMessageSchema`); `id` models the Mongo `_id`. -/
structure DMEntry where
  id : Nat
  device_unique_id : String
  timestamp : Nat
  params_to_send : Params
  consumed : Bool
deriving Repr, DecidableEq

/-- One element of the `/api/live-devices` response. -/
structure PresenceView where
  device_unique_id : String
  lastSeenMs : Nat
  ageMs : Nat
  last : Sample
deriving Repr, DecidableEq

/-- A request-body field as the handler sees it after JSON parsing:
missing/null, a string, or some non-string value. -/
inductive BodyField where
  | missing
  | str (s : String)
  | nonString
deriving Repr, DecidableEq

/-- The result of applying JS `Number(...)` to a field: a finite number, or
`NaN`/infinite (also covers a missing field, since `Number(undefined)` is
`NaN`). -/
inductive NumField where
  | finite (n : Int)
  | notFinite
deriving Repr, DecidableEq

/-- Body of a `POST /api/ingest` request, with numeric fields abstracted to
the outcome of the `Number(...)` coercion the handler applies. -/
structure IngestReq where
  device_unique_id : BodyField
  temp : NumField
  fan : NumField
  mode : BodyField
deriving Repr, DecidableEq

/-- A document of the `messages` collection (`MessageSchema`): the whole
request body is stored under `message`. -/
structure MessageDoc where
  device_unique_id : String
  message : IngestReq
  timestamp : Nat
deriving Repr, DecidableEq

/-- The server's mutable state: the three in-memory structures
(`liveSamples`, `lastSeenByDevice`, `lastSampleByDevice`) and the durable
collections, plus the `mongoose.connection.readyState === 1` flag. -/
structure ServerState where
  liveSamples : List Sample
  lastSeenByDevice : List (String × Nat)
  lastSampleByDevice : List (String × Sample)
  temperatures : List Sample
  messages : List MessageDoc
  deviceMessages : List DMEntry
  mongoReady : Bool
deriving Repr, DecidableEq

/-- `Map.prototype.get`. -/
def getAssoc {α : Type} (k : String) : List (String × α) → Option α
  | [] => none
  | p :: m => if p.1 = k then some p.2 else getAssoc k m

/-- `Map.prototype.set`: replace in place if the key is present, else append
(JS `Map`s keep insertion order). -/
def setAssoc {α : Type} (k : String) (v : α) : List (String × α) → List (String × α)
  | [] => [(k, v)]
  | p :: m => if p.1 = k then (k, v) :: m else p :: setAssoc k v m

/-- `liveSamples.push(sample); if (liveSamples.length > LIVE_BUFFER_MAX)
liveSamples.shift();` — the Live Sample Ring push. -/
def pushRing {α : Type} (maxBuf : Nat) (ring : List α) (s : α) : List α :=
  let r := ring ++ [s]
  if maxBuf < r.length then r.tail else r

/-- Pushing a whole sequence of samples through the ring. -/
def pushRingAll {α : Type} (maxBuf : Nat) (ring : List α) : List α → List α
  | [] => ring
  | s :: rest => pushRingAll maxBuf (pushRing maxBuf ring s) rest

/-- The validation `if (!device_unique_id || typeof device_unique_id !==
"string")`: a non-empty string passes, everything else (missing, non-string,
or the falsy empty string) is rejected. -/
def validDevice : BodyField → Option String
  | .str s => if s = "" then none else some s
  | _ => none

/-- `Number.isFinite(Number(fan)) ? Number(fan) : 0`. -/
def fanOrZero : NumField → Int
  | .finite n => n
  | .notFinite => 0

/-- `typeof mode === "string" ? mode : null`. -/
def modeOrNull : BodyField → Option String
  | .str s => some s
  | _ => none

/-- `POST /api/ingest` (`src/unnamed/part_000`): validate, build the sample,
update the two presence maps and the ring, then (when Mongo is connected)
persist the `Message` and `Temperature` documents.  Returns the HTTP status
and the new state; `now` models both `Date.now()` and `new Date()`. -/
def ingest (maxBuf now : Nat) (req : IngestReq) (st : ServerState) :
    Nat × ServerState :=
  match validDevice req.device_unique_id with
  | none => (400, st)
  | some d =>
    match req.temp with
    | .notFinite => (400, st)
    | .finite tempNum =>
      let sample : Sample :=
        { device_unique_id := d, value := tempNum, fan := fanOrZero req.fan,
          mode := modeOrNull req.mode, timestamp := now }
      let st1 := { st with
        lastSeenByDevice := setAssoc d now st.lastSeenByDevice,
        lastSampleByDevice := setAssoc d sample st.lastSampleByDevice,
        liveSamples := pushRing maxBuf st.liveSamples sample }
      let st2 :=
        if st1.mongoReady then
          { st1 with
            messages := st1.messages ++
              [{ device_unique_id := d, message := req, timestamp := now }],
            temperatures := st1.temperatures ++ [sample] }
        else st1
      (201, st2)

/-- The sweep's expiry test `now - lastSeen > DEVICE_TTL_MS`. -/
def expiredAt (now ttl lastSeen : Nat) : Bool := ttl < now - lastSeen

/-- The periodic cleanup sweep: for every `lastSeenByDevice` entry past the
TTL, delete the device from both presence maps.  Nothing else is touched. -/
def sweep (now ttl : Nat) (st : ServerState) : ServerState :=
  { st with
    lastSeenByDevice :=
      st.lastSeenByDevice.filter (fun p => !expiredAt now ttl p.2),
    lastSampleByDevice :=
      st.lastSampleByDevice.filter (fun p =>
        !(st.lastSeenByDevice.any (fun q => q.1 == p.1 && expiredAt now ttl q.2))) }

/-- "Descending by `key`" as a binary relation, the order used by the JS
comparator sorts in the live-devices and db-data handlers. -/
def descBy {α : Type} (key : α → Nat) (a b : α) : Prop := key b ≤ key a

instance {α : Type} (key : α → Nat) : DecidableRel (descBy key) :=
  fun a b => Nat.decLe (key b) (key a)

instance {α : Type} (key : α → Nat) : IsTotal α (descBy key) :=
  ⟨fun a b => Nat.le_total (key b) (key a)⟩

instance {α : Type} (key : α → Nat) : IsTrans α (descBy key) :=
  ⟨fun _ _ _ h1 h2 => Nat.le_trans h2 h1⟩

/-- One iteration of the `/api/live-devices` loop: the `PresenceView` for a
`lastSampleByDevice` entry when its age is within the TTL, with
`lastSeenByDevice.get(deviceId) || 0` as the last-seen time. -/
def liveView (now ttl : Nat) (seen : List (String × Nat))
    (p : String × Sample) : Option PresenceView :=
  let lastSeen := (getAssoc p.1 seen).getD 0
  let ageMs := now - lastSeen
  if ageMs ≤ ttl then
    some { device_unique_id := p.1, lastSeenMs := lastSeen, ageMs := ageMs,
           last := p.2 }
  else none

/-- The unsorted body of the `/api/live-devices` loop. -/
def liveViews (now ttl : Nat) (st : ServerState) : List PresenceView :=
  st.lastSampleByDevice.filterMap (liveView now ttl st.lastSeenByDevice)

/-- `GET /api/live-devices`: the filtered views sorted by
`(a, b) => b.lastSeenMs - a.lastSeenMs` (descending last-seen). -/
def liveDevices (now ttl : Nat) (st : ServerState) : List PresenceView :=
  List.insertionSort (descBy PresenceView.lastSeenMs) (liveViews now ttl st)

/-- The Mongo filter of `GET /api/db-data`: by device when the query gives
one, else everything. -/
def dbFilter (deviceId : Option String) (s : Sample) : Bool :=
  match deviceId with
  | some d => s.device_unique_id == d
  | none => true

/-- `GET /api/db-data`: `limit = Math.min(Number(req.query.limit || 50),
500)` is handed to MongoDB `.limit(limit)`, whose semantics at `0` is **no
limit at all** — so the handler returns the most recent `limit` matching
samples when `limit` is positive, but the entire matching history when the
query says `limit=0` (`Number("0") = 0` survives the `|| 50` default since
`"0"` is a truthy string); either way the list is reversed into
oldest-first order. -/
def dbData (limitParam : Option Nat) (deviceId : Option String)
    (st : ServerState) : List Sample :=
  let limit := min (limitParam.getD 50) 500
  let sorted := (st.temperatures.filter (dbFilter deviceId)).insertionSort
    (descBy Sample.timestamp)
  (if limit = 0 then sorted else sorted.take limit).reverse

/-- Does the entry match the poll filter `{ device_unique_id, consumed:
false }`? -/
def queuedFor (d : String) (e : DMEntry) : Bool :=
  e.device_unique_id == d && !e.consumed

/-- `findOne(filter).sort({ timestamp: 1 })`: the queued entry for `d` with
the smallest timestamp (first one wins a tie). -/
def oldestQueued (d : String) : List DMEntry → Option DMEntry
  | [] => none
  | e :: rest =>
    let r := oldestQueued d rest
    if queuedFor d e then
      match r with
      | none => some e
      | some e2 => if e.timestamp ≤ e2.timestamp then some e else some e2
    else r

/-- The `$set: { consumed: true }` update applied to the entry with the
given `_id`. -/
def markConsumed (i : Nat) (store : List DMEntry) : List DMEntry :=
  store.map (fun x => if x.id = i then { x with consumed := true } else x)

/-- `findOneAndUpdate(filter, { $set: { consumed: true } }, { sort:
{ timestamp: 1 }, new: true })` as one atomic step: select the oldest queued
entry for `d`, flip its `consumed` flag in the store, and return the
post-update document. -/
def consumeOldest (d : String) (store : List DMEntry) :
    Option DMEntry × List DMEntry :=
  match oldestQueued d store with
  | none => (none, store)
  | some e => (some { e with consumed := true }, markConsumed e.id store)

/-- `GET /api/device-message/:device_unique_id` (`peek = (req.query.peek ===
"1")`): peek reads the oldest queued entry, consume additionally flips it;
`204` with no body when nothing is queued, else `200` with the entry. -/
def pollHandler (d : String) (peek : Bool) (store : List DMEntry) :
    Nat × Option DMEntry × List DMEntry :=
  let r := if peek then (oldestQueued d store, store) else consumeOldest d store
  match r.1 with
  | none => (204, none, r.2)
  | some m => (200, some m, r.2)

/-- Repeated peek-polls: the list of `(status, body)` results of `n`
successive peeks, threading the (unchanged) store through. -/
def repeatPeek (d : String) (store : List DMEntry) :
    Nat → List (Nat × Option DMEntry)
  | 0 => []
  | n + 1 =>
    let r := pollHandler d true store
    (r.1, r.2.1) :: repeatPeek d r.2.2 n

/-- `DeviceMessage.create({...})`: append a fresh entry with
`consumed: false`; `id` models the Mongo-generated `_id`. -/
def enqueueEntry (d : String) (p : Params) (id now : Nat)
    (store : List DMEntry) : List DMEntry :=
  store ++ [{ id := id, device_unique_id := d, timestamp := now,
              params_to_send := p, consumed := false }]

/-- The `params_to_send` field of a `POST /api/device-message` body:
`undefined` is rejected, anything else accepted. -/
inductive ParamsField where
  | missing
  | val (p : Params)
deriving Repr, DecidableEq

/-- `POST /api/device-message` in `src/unnamed/part_000`: validate the two
fields and create the entry; no registration or prior-ingest check.
Returns `(status, returned id, new store)`. -/
def deviceMessagePost (device : BodyField) (params : ParamsField)
    (id now : Nat) (store : List DMEntry) :
    Nat × Option Nat × List DMEntry :=
  match validDevice device with
  | none => (400, none, store)
  | some d =>
    match params with
    | .missing => (400, none, store)
    | .val p => (201, some id, enqueueEntry d p id now store)

/-- `POST /api/device-message` in `src/app.js`: same validation, but then
`Device.findOne({ device_unique_id })` — an unregistered device is refused
with `403 unknown device` before anything is created. -/
def deviceMessagePostApp (registered : List String) (device : BodyField)
    (params : ParamsField) (id now : Nat) (store : List DMEntry) :
    Nat × Option Nat × List DMEntry :=
  match validDevice device with
  | none => (400, none, store)
  | some d =>
    match params with
    | .missing => (400, none, store)
    | .val p =>
      if d ∈ registered then (201, some id, enqueueEntry d p id now store)
      else (403, none, store)

/-- Number of queued (`consumed=false`) entries for `d` in the store. -/
def countQueued (d : String) (store : List DMEntry) : Nat :=
  (store.filter (queuedFor d)).length

/-- `n` consume-polls for `d` run one after the other, as the atomic
`findOneAndUpdate` serialises any `n` concurrent ones.  Returns the list of
poll results and the final store. -/
def runConsumes (d : String) : Nat → List DMEntry → List (Option DMEntry) × List DMEntry
  | 0, store => ([], store)
  | n + 1, store =>
    let r := consumeOldest d store
    let rest := runConsumes d n r.2
    (r.1 :: rest.1, rest.2)

/-- The key list of an association list has no duplicates — every list
modelling a JS `Map` satisfies this. -/
def NodupKeys {α : Type} (m : List (String × α)) : Prop :=
  (m.map Prod.fst).Nodup

/-- The Mongo `_id`s of a command store, in order. -/
def idsOf (store : List DMEntry) : List Nat := store.map DMEntry.id

/-- Every entry carrying the given `_id` is already `Delivered`. -/
def consumedById (i : Nat) (store : List DMEntry) : Prop :=
  ∀ x ∈ store, x.id = i → x.consumed = true

/-- C10's invariant on the two presence maps: `Map`-like unique keys, the
same key set on both (one `isSome` exactly when the other is), and every
stored last sample stamped with the very device key it is stored under. -/
def TrackerInv (st : ServerState) : Prop :=
  NodupKeys st.lastSeenByDevice ∧ NodupKeys st.lastSampleByDevice ∧
  (∀ k, (getAssoc k st.lastSeenByDevice).isSome =
    (getAssoc k st.lastSampleByDevice).isSome) ∧
  (∀ k s, getAssoc k st.lastSampleByDevice = some s →
    s.device_unique_id = k)

/-- All stored last-seen instants are at most `t` (they are past values of
`Date.now()`). -/
def SeenBounded (t : Nat) (st : ServerState) : Prop :=
  ∀ k v, getAssoc k st.lastSeenByDevice = some v → v ≤ t

/-- A state whose durable history holds 501 samples for one device,
timestamps `0..500` — enough to overflow the supposed 500-sample cap when
`limit=0` disables the limit. -/
def bigHistoryState : ServerState :=
  { liveSamples := [], lastSeenByDevice := [], lastSampleByDevice := [],
    temperatures := (List.range 501).map (fun i => ⟨"pico-1", 20, 0, none, i⟩),
    messages := [], deviceMessages := [], mongoReady := true }

/-- A concrete two-device tracker state used to exercise the live-devices
listing: `"old"` last seen at 50, `"fresh"` at 95. -/
def presenceStateA : ServerState :=
  { liveSamples := [],
    lastSeenByDevice := [("old", 50), ("fresh", 95)],
    lastSampleByDevice :=
      [("old", ⟨"old", 1, 0, none, 50⟩), ("fresh", ⟨"fresh", 2, 0, none, 95⟩)],
    temperatures := [], messages := [], deviceMessages := [],
    mongoReady := true }

/-! ### Live Sample Ring -/

theorem pushRing_eq_drop {α : Type} (maxBuf : Nat) (ring : List α) (s : α)
    (h : ring.length ≤ maxBuf) :
    pushRing maxBuf ring s = (ring ++ [s]).drop (ring.length + 1 - maxBuf) := by
  unfold pushRing
  by_cases hc : maxBuf < (ring ++ [s]).length
  · simp only [hc, if_true]
    have hlen : (ring ++ [s]).length = ring.length + 1 := by simp
    have : ring.length + 1 - maxBuf = 1 := by omega
    rw [this, List.drop_one]
  · simp only [hc, if_false]
    have hlen : (ring ++ [s]).length = ring.length + 1 := by simp
    have : ring.length + 1 - maxBuf = 0 := by omega
    rw [this, List.drop_zero]

theorem length_pushRing {α : Type} (maxBuf : Nat) (ring : List α) (s : α)
    (h : ring.length ≤ maxBuf) : (pushRing maxBuf ring s).length ≤ maxBuf := by
  rw [pushRing_eq_drop maxBuf ring s h, List.length_drop]
  simp only [List.length_append, List.length_singleton]
  omega

theorem pushRingAll_eq_drop {α : Type} (maxBuf : Nat) (xs : List α) :
    ∀ ring : List α, ring.length ≤ maxBuf →
      pushRingAll maxBuf ring xs =
        (ring ++ xs).drop ((ring ++ xs).length - maxBuf) := by
  induction xs with
  | nil =>
    intro ring h
    simp only [pushRingAll, List.append_nil]
    have : ring.length - maxBuf = 0 := by omega
    rw [this, List.drop_zero]
  | cons x xs ih =>
    intro ring h
    show pushRingAll maxBuf (pushRing maxBuf ring x) xs = _
    rw [ih (pushRing maxBuf ring x) (length_pushRing maxBuf ring x h),
      pushRing_eq_drop maxBuf ring x h]
    have hd1 : ring.length + 1 - maxBuf ≤ (ring ++ [x]).length := by
      simp only [List.length_append, List.length_singleton]; omega
    have hrw : List.drop (ring.length + 1 - maxBuf) (ring ++ [x]) ++ xs =
        List.drop (ring.length + 1 - maxBuf) ((ring ++ [x]) ++ xs) :=
      (List.drop_append_of_le_length hd1).symm
    rw [hrw, List.drop_drop, List.append_assoc, List.singleton_append]
    congr 1
    simp only [List.length_drop, List.length_append, List.length_singleton,
      List.length_cons]
    omega

theorem length_pushRingAll {α : Type} (maxBuf : Nat) (xs ring : List α)
    (h : ring.length ≤ maxBuf) : (pushRingAll maxBuf ring xs).length ≤ maxBuf := by
  rw [pushRingAll_eq_drop maxBuf xs ring h, List.length_drop]
  omega

/-- C3: the Live Sample Ring's length never exceeds `LIVE_BUFFER_MAX`
(starting from the empty ring, after any sequence of pushes), and after
pushing `LIVE_BUFFER_MAX + k` samples the ring holds exactly the last
`LIVE_BUFFER_MAX` pushed samples in arrival order, oldest first (the first
`k` pushed — the oldest — having been evicted). -/
theorem live_ring_bounded_and_holds_suffix (maxBuf k : Nat) (xs : List Sample)
    (hlen : xs.length = maxBuf + k) :
    (∀ ys : List Sample, (pushRingAll maxBuf [] ys).length ≤ maxBuf) ∧
    pushRingAll maxBuf [] xs = xs.drop k := by
  constructor
  · intro ys
    exact length_pushRingAll maxBuf ys [] (by simp)
  · rw [pushRingAll_eq_drop maxBuf xs [] (by simp)]
    simp only [List.nil_append]
    rw [hlen]
    congr 1
    omega

/-- Witness for C3 at `maxBuf = 2`, three pushed samples: the ring keeps the
last two. -/
theorem live_ring_bounded_and_holds_suffix_witness :
    (∀ ys : List Sample, (pushRingAll 2 [] ys).length ≤ 2) ∧
    pushRingAll 2 ([] : List Sample)
        [⟨"a", 1, 0, none, 10⟩, ⟨"a", 2, 0, none, 11⟩, ⟨"b", 3, 0, none, 12⟩] =
      List.drop 1
        [⟨"a", 1, 0, none, 10⟩, ⟨"a", 2, 0, none, 11⟩, ⟨"b", 3, 0, none, 12⟩] :=
  live_ring_bounded_and_holds_suffix 2 1
    [⟨"a", 1, 0, none, 10⟩, ⟨"a", 2, 0, none, 11⟩, ⟨"b", 3, 0, none, 12⟩] rfl

/-! ### Association-list toolkit (JS `Map`s have unique keys) -/

theorem getAssoc_mem {α : Type} {k : String} {v : α} :
    ∀ {m : List (String × α)}, getAssoc k m = some v → (k, v) ∈ m := by
  intro m
  induction m with
  | nil => intro h; simp [getAssoc] at h
  | cons p rest ih =>
    intro h
    by_cases hk : p.1 = k
    · simp only [getAssoc, hk, if_true, Option.some_inj] at h
      subst hk; subst h
      exact List.mem_cons_self p rest
    · simp only [getAssoc, hk, if_false] at h
      exact List.mem_cons_of_mem p (ih h)

theorem getAssoc_isSome_of_mem {α : Type} {k : String} {v : α} :
    ∀ {m : List (String × α)}, (k, v) ∈ m → (getAssoc k m).isSome := by
  intro m
  induction m with
  | nil => intro h; simp at h
  | cons p rest ih =>
    intro h
    by_cases hk : p.1 = k
    · simp [getAssoc, hk]
    · rcases List.mem_cons.mp h with he | ht
      · exact absurd (congrArg Prod.fst he).symm hk
      · simpa [getAssoc, hk] using ih ht

theorem nodupKeys_eq_of_mem {α : Type} {m : List (String × α)}
    (h : NodupKeys m) {k : String} {a b : α}
    (ha : (k, a) ∈ m) (hb : (k, b) ∈ m) : a = b := by
  induction m with
  | nil => simp at ha
  | cons p rest ih =>
    have hnd : p.1 ∉ rest.map Prod.fst ∧ NodupKeys rest := by
      simpa [NodupKeys] using h
    rcases List.mem_cons.mp ha with hae | hat <;>
      rcases List.mem_cons.mp hb with hbe | hbt
    · exact congrArg Prod.snd (hae.trans hbe.symm)
    · exfalso
      apply hnd.1
      have hk : k ∈ rest.map Prod.fst := List.mem_map_of_mem Prod.fst hbt
      rw [← hae]
      exact hk
    · exfalso
      apply hnd.1
      have hk : k ∈ rest.map Prod.fst := List.mem_map_of_mem Prod.fst hat
      rw [← hbe]
      exact hk
    · exact ih hnd.2 hat hbt

theorem getAssoc_eq_some_of_mem {α : Type} {m : List (String × α)}
    (h : NodupKeys m) {k : String} {v : α} (hm : (k, v) ∈ m) :
    getAssoc k m = some v := by
  have hs := getAssoc_isSome_of_mem hm
  rcases Option.isSome_iff_exists.mp hs with ⟨w, hw⟩
  have := nodupKeys_eq_of_mem h (getAssoc_mem hw) hm
  rw [hw, this]

theorem getAssoc_setAssoc {α : Type} (k q : String) (v : α) :
    ∀ m : List (String × α),
      getAssoc q (setAssoc k v m) =
        if k = q then some v else getAssoc q m := by
  intro m
  induction m with
  | nil => by_cases h : k = q <;> simp [setAssoc, getAssoc, h]
  | cons p rest ih =>
    by_cases hp : p.1 = k
    · by_cases h : k = q <;> simp [setAssoc, getAssoc, hp, h]
    · by_cases h : p.1 = q
      · have hkq : ¬ k = q := fun he => hp (by rw [h, he])
        have hqk : ¬ q = k := fun he => hkq he.symm
        simp [setAssoc, getAssoc, hp, h, hkq, hqk]
      · simp [setAssoc, getAssoc, hp, h, ih]

theorem mem_keys_setAssoc {α : Type} (k q : String) (v : α) :
    ∀ m : List (String × α),
      q ∈ (setAssoc k v m).map Prod.fst ↔ q = k ∨ q ∈ m.map Prod.fst := by
  intro m
  induction m with
  | nil => simp [setAssoc]
  | cons p rest ih =>
    by_cases hp : p.1 = k
    · simp only [setAssoc, hp, if_true, List.map_cons, List.mem_cons]
      tauto
    · simp only [setAssoc, hp, if_false, List.map_cons, List.mem_cons, ih]
      tauto

theorem nodupKeys_setAssoc {α : Type} (k : String) (v : α)
    {m : List (String × α)} (h : NodupKeys m) : NodupKeys (setAssoc k v m) := by
  induction m with
  | nil => simp [NodupKeys, setAssoc]
  | cons p rest ih =>
    have hnd : p.1 ∉ rest.map Prod.fst ∧ NodupKeys rest := by
      simpa [NodupKeys] using h
    by_cases hp : p.1 = k
    · simpa [NodupKeys, setAssoc, hp] using hnd
    · have htail := ih hnd.2
      have hk : p.1 ∉ (setAssoc k v rest).map Prod.fst := by
        rw [mem_keys_setAssoc]
        rintro (he | hmem)
        · exact hp he
        · exact hnd.1 hmem
      have hstep : setAssoc k v (p :: rest) = p :: setAssoc k v rest := by
        simp [setAssoc, hp]
      unfold NodupKeys
      rw [hstep, List.map_cons, List.nodup_cons]
      exact ⟨hk, htail⟩

theorem nodupKeys_filter {α : Type} (p : String × α → Bool)
    {m : List (String × α)} (h : NodupKeys m) : NodupKeys (m.filter p) := by
  unfold NodupKeys
  exact List.Nodup.sublist ((List.filter_sublist m).map Prod.fst) h

/-! ### Ingest validation and the sweep -/

/-- C7: an ingest request whose `device_unique_id` fails the string check or
whose `temp` does not coerce to a finite number gets HTTP 400 and the whole
server state — presence tracker, Live Sample Ring, and the durable
collections — is returned untouched. -/
theorem ingest_invalid_is_400_and_pure (maxBuf now : Nat) (req : IngestReq)
    (st : ServerState)
    (h : validDevice req.device_unique_id = none ∨ req.temp = NumField.notFinite) :
    ingest maxBuf now req st = (400, st) := by
  rcases h with h | h
  · simp [ingest, h]
  · cases hv : validDevice req.device_unique_id with
    | none => simp [ingest, hv]
    | some d => simp [ingest, hv, h]

/-- Witness for C7: `temp="not-a-number"` (so `Number(temp)` is `NaN`) on a
state holding one tracked device is rejected with 400 and the state is
unchanged. -/
theorem ingest_invalid_is_400_and_pure_witness :
    ingest 50 1000
        { device_unique_id := BodyField.str "pico-1",
          temp := NumField.notFinite, fan := NumField.notFinite,
          mode := BodyField.missing }
        { liveSamples := [⟨"pico-1", 21, 0, none, 5⟩],
          lastSeenByDevice := [("pico-1", 5)],
          lastSampleByDevice := [("pico-1", ⟨"pico-1", 21, 0, none, 5⟩)],
          temperatures := [⟨"pico-1", 21, 0, none, 5⟩],
          messages := [], deviceMessages := [], mongoReady := true } =
      (400,
        { liveSamples := [⟨"pico-1", 21, 0, none, 5⟩],
          lastSeenByDevice := [("pico-1", 5)],
          lastSampleByDevice := [("pico-1", ⟨"pico-1", 21, 0, none, 5⟩)],
          temperatures := [⟨"pico-1", 21, 0, none, 5⟩],
          messages := [], deviceMessages := [], mongoReady := true }) :=
  ingest_invalid_is_400_and_pure 50 1000 _ _ (Or.inr rfl)

/-- C5: one sweep pass deletes a device's last-seen entry exactly when
`now - last_seen > ttl` (strict), deletes its last-sample entry under the
same condition (a device with no last-seen entry is never touched), and
leaves the Live Sample Ring and both durable collections untouched. -/
theorem sweep_evicts_iff_expired_and_frames (now ttl : Nat) (st : ServerState)
    (hnd : NodupKeys st.lastSeenByDevice) :
    (sweep now ttl st).liveSamples = st.liveSamples ∧
    (sweep now ttl st).temperatures = st.temperatures ∧
    (sweep now ttl st).messages = st.messages ∧
    (sweep now ttl st).deviceMessages = st.deviceMessages ∧
    (∀ d t, (d, t) ∈ st.lastSeenByDevice →
      ((d, t) ∈ (sweep now ttl st).lastSeenByDevice ↔ ¬ ttl < now - t)) ∧
    (∀ d s t, (d, s) ∈ st.lastSampleByDevice → (d, t) ∈ st.lastSeenByDevice →
      ((d, s) ∈ (sweep now ttl st).lastSampleByDevice ↔ ¬ ttl < now - t)) ∧
    (∀ d s, (d, s) ∈ st.lastSampleByDevice →
      (∀ t, (d, t) ∉ st.lastSeenByDevice) →
      (d, s) ∈ (sweep now ttl st).lastSampleByDevice) := by
  refine ⟨rfl, rfl, rfl, rfl, ?_, ?_, ?_⟩
  · intro d t hm
    simp [sweep, List.mem_filter, hm, expiredAt]
  · intro d s t hs ht
    have hany :
        st.lastSeenByDevice.any (fun q => q.1 == d && expiredAt now ttl q.2) =
          expiredAt now ttl t := by
      apply Bool.eq_iff_iff.mpr
      rw [List.any_eq_true]
      constructor
      · rintro ⟨q, hq, hpq⟩
        have hparts : q.1 = d ∧ expiredAt now ttl q.2 = true := by
          simpa using hpq
        have hq2 : (d, q.2) ∈ st.lastSeenByDevice := by
          have hqp : q = (d, q.2) := by
            cases q
            simp_all
          exact hqp ▸ hq
        have := nodupKeys_eq_of_mem hnd hq2 ht
        rw [← this]
        exact hparts.2
      · intro hexp
        exact ⟨(d, t), ht, by simp [hexp]⟩
    have hmem : (d, s) ∈ (sweep now ttl st).lastSampleByDevice ↔
        (d, s) ∈ st.lastSampleByDevice ∧
          (!(st.lastSeenByDevice.any
              (fun q => q.1 == d && expiredAt now ttl q.2))) = true := by
      simp [sweep, List.mem_filter]
    rw [hmem, hany]
    simp [hs, expiredAt]
  · intro d s hs habs
    have hany :
        st.lastSeenByDevice.any (fun q => q.1 == d && expiredAt now ttl q.2) =
          false := by
      rw [List.any_eq_false]
      intro q hq hpq
      have hparts : q.1 = d ∧ expiredAt now ttl q.2 = true := by
        simpa using hpq
      apply habs q.2
      have hqp : q = (d, q.2) := by
        cases q
        simp_all
      exact hqp ▸ hq
    have hmem : (d, s) ∈ (sweep now ttl st).lastSampleByDevice ↔
        (d, s) ∈ st.lastSampleByDevice ∧
          (!(st.lastSeenByDevice.any
              (fun q => q.1 == d && expiredAt now ttl q.2))) = true := by
      simp [sweep, List.mem_filter]
    rw [hmem, hany]
    simp [hs]

/-- Witness for C5: at `now = 100`, `ttl = 10`, a device last seen at 50 and
one last seen at 95, the sweep keeps the fresh one and drops the stale one,
touching nothing else. -/
theorem sweep_evicts_iff_expired_and_frames_witness :
    (sweep 100 10
        { liveSamples := [⟨"old", 1, 0, none, 50⟩],
          lastSeenByDevice := [("old", 50), ("fresh", 95)],
          lastSampleByDevice :=
            [("old", ⟨"old", 1, 0, none, 50⟩), ("fresh", ⟨"fresh", 2, 0, none, 95⟩)],
          temperatures := [⟨"old", 1, 0, none, 50⟩],
          messages := [], deviceMessages := [], mongoReady := true }).liveSamples =
        [⟨"old", 1, 0, none, 50⟩] ∧
    (("old", (50 : Nat)) ∈
        (sweep 100 10
          { liveSamples := [⟨"old", 1, 0, none, 50⟩],
            lastSeenByDevice := [("old", 50), ("fresh", 95)],
            lastSampleByDevice :=
              [("old", ⟨"old", 1, 0, none, 50⟩), ("fresh", ⟨"fresh", 2, 0, none, 95⟩)],
            temperatures := [⟨"old", 1, 0, none, 50⟩],
            messages := [], deviceMessages := [], mongoReady := true }).lastSeenByDevice ↔
      ¬ 10 < 100 - 50) :=
  ⟨(sweep_evicts_iff_expired_and_frames 100 10 _
      (by unfold NodupKeys; decide)).1,
   (sweep_evicts_iff_expired_and_frames 100 10 _
      (by unfold NodupKeys; decide)).2.2.2.2.1 "old" 50 (by decide)⟩

/-! ### Command mailbox: selection lemmas -/

theorem oldestQueued_eq_none_iff {d : String} :
    ∀ {store : List DMEntry},
      oldestQueued d store = none ↔ ∀ e ∈ store, queuedFor d e = false := by
  intro store
  induction store with
  | nil => simp [oldestQueued]
  | cons a rest ih =>
    by_cases hq : queuedFor d a
    · simp only [oldestQueued, hq, if_true]
      constructor
      · intro h
        exfalso
        cases hr : oldestQueued d rest <;> rw [hr] at h <;> simp at h
        split at h <;> simp at h
      · intro h
        exact absurd (h a (List.mem_cons_self a rest)) (by simp [hq])
    · have hstep : oldestQueued d (a :: rest) = oldestQueued d rest := by
        simp [oldestQueued, hq]
      rw [hstep, ih]
      constructor
      · intro h e he
        rcases List.mem_cons.mp he with he | he
        · rw [he]
          exact Bool.eq_false_iff.mpr hq
        · exact h e he
      · intro h e he
        exact h e (List.mem_cons_of_mem a he)

theorem oldestQueued_spec {d : String} :
    ∀ {store : List DMEntry} {e : DMEntry}, oldestQueued d store = some e →
      e ∈ store ∧ queuedFor d e = true ∧
        ∀ x ∈ store, queuedFor d x = true → e.timestamp ≤ x.timestamp := by
  intro store
  induction store with
  | nil => intro e h; simp [oldestQueued] at h
  | cons a rest ih =>
    intro e h
    by_cases hq : queuedFor d a
    · simp only [oldestQueued, hq, if_true] at h
      cases hr : oldestQueued d rest with
      | none =>
        rw [hr] at h
        simp only [Option.some_inj] at h
        subst h
        refine ⟨List.mem_cons_self _ _, hq, ?_⟩
        intro x hx hqx
        rcases List.mem_cons.mp hx with hx | hx
        · rw [hx]
        · exact absurd hqx (by
            simp [oldestQueued_eq_none_iff.mp hr x hx])
      | some e2 =>
        rw [hr] at h
        rcases ih hr with ⟨hmem2, hq2, hmin2⟩
        by_cases hts : a.timestamp ≤ e2.timestamp
        · simp only [hts, if_true, Option.some_inj] at h
          subst h
          refine ⟨List.mem_cons_self _ _, hq, ?_⟩
          intro x hx hqx
          rcases List.mem_cons.mp hx with hx | hx
          · rw [hx]
          · exact Nat.le_trans hts (hmin2 x hx hqx)
        · simp only [hts, if_false, Option.some_inj] at h
          subst h
          refine ⟨List.mem_cons_of_mem a hmem2, hq2, ?_⟩
          intro x hx hqx
          rcases List.mem_cons.mp hx with hx | hx
          · rw [hx]
            exact Nat.le_of_lt (Nat.lt_of_not_le hts)
          · exact hmin2 x hx hqx
    · have hstep : oldestQueued d (a :: rest) = oldestQueued d rest := by
        simp [oldestQueued, hq]
      rw [hstep] at h
      rcases ih h with ⟨hmem2, hq2, hmin2⟩
      refine ⟨List.mem_cons_of_mem a hmem2, hq2, ?_⟩
      intro x hx hqx
      rcases List.mem_cons.mp hx with hx | hx
      · exact absurd hqx (by rw [hx]; simp [hq])
      · exact hmin2 x hx hqx

theorem countQueued_eq_zero_iff {d : String} {store : List DMEntry} :
    countQueued d store = 0 ↔ oldestQueued d store = none := by
  rw [oldestQueued_eq_none_iff]
  unfold countQueued
  rw [List.length_eq_zero, List.filter_eq_nil_iff]
  constructor
  · intro h e he
    exact Bool.eq_false_iff.mpr (h e he)
  · intro h e he
    exact Bool.eq_false_iff.mp (h e he)

theorem countQueued_pos_of_mem {d : String} {store : List DMEntry}
    {e : DMEntry} (he : e ∈ store) (hq : queuedFor d e = true) :
    1 ≤ countQueued d store := by
  unfold countQueued
  have : e ∈ store.filter (queuedFor d) := List.mem_filter.mpr ⟨he, hq⟩
  exact List.length_pos.mpr (List.ne_nil_of_mem this)

/-! ### Command mailbox: the consume step -/

theorem idsOf_markConsumed (i : Nat) (store : List DMEntry) :
    idsOf (markConsumed i store) = idsOf store := by
  unfold idsOf markConsumed
  rw [List.map_map]
  apply List.map_congr_left
  intro x _
  by_cases hx : x.id = i <;> simp [hx]

theorem markConsumed_of_ids_ne {i : Nat} :
    ∀ {store : List DMEntry}, (∀ x ∈ store, x.id ≠ i) →
      markConsumed i store = store := by
  intro store
  induction store with
  | nil => intro _; rfl
  | cons a rest ih =>
    intro h
    have ha : a.id ≠ i := h a (List.mem_cons_self a rest)
    have hrest := ih (fun x hx => h x (List.mem_cons_of_mem a hx))
    simp only [markConsumed, List.map_cons, ha, if_false]
    rw [show List.map (fun x => if x.id = i then { x with consumed := true } else x) rest =
      markConsumed i rest from rfl, hrest]

theorem queuedFor_flip_false (d : String) (e : DMEntry) :
    queuedFor d { e with consumed := true } = false := by
  simp [queuedFor]

theorem consumedById_markConsumed_self (i : Nat) (store : List DMEntry) :
    consumedById i (markConsumed i store) := by
  intro x hx hxi
  unfold markConsumed at hx
  rcases List.mem_map.mp hx with ⟨y, _, hy⟩
  by_cases hyi : y.id = i
  · rw [← hy]
    simp [hyi]
  · rw [← hy] at hxi ⊢
    simp only [hyi, if_false] at hxi ⊢

theorem consumedById_markConsumed_mono {i : Nat} (j : Nat)
    {store : List DMEntry} (h : consumedById i store) :
    consumedById i (markConsumed j store) := by
  intro x hx hxi
  unfold markConsumed at hx
  rcases List.mem_map.mp hx with ⟨y, hymem, hy⟩
  by_cases hyj : y.id = j
  · rw [← hy]
    simp [hyj]
  · rw [← hy] at hxi ⊢
    simp only [hyj, if_false] at hxi ⊢
    exact h y hymem hxi

theorem mem_of_queued_mem_markConsumed {d : String} {i : Nat}
    {store : List DMEntry} {x : DMEntry} (hx : x ∈ markConsumed i store)
    (hq : queuedFor d x = true) : x ∈ store := by
  unfold markConsumed at hx
  rcases List.mem_map.mp hx with ⟨y, hymem, hy⟩
  by_cases hyj : y.id = i
  · rw [if_pos hyj] at hy
    rw [← hy] at hq
    rw [queuedFor_flip_false] at hq
    simp at hq
  · simp only [hyj, if_false] at hy
    rw [← hy]
    exact hymem

theorem countQueued_markConsumed {d : String} :
    ∀ {store : List DMEntry}, (idsOf store).Nodup →
      ∀ {e0 : DMEntry}, e0 ∈ store → queuedFor d e0 = true →
        countQueued d (markConsumed e0.id store) + 1 = countQueued d store := by
  intro store
  induction store with
  | nil => intro _ e0 h; simp at h
  | cons a rest ih =>
    intro hnd e0 hmem hq
    have hnd2 : a.id ∉ idsOf rest ∧ (idsOf rest).Nodup := by
      simpa [idsOf] using hnd
    rcases List.mem_cons.mp hmem with he | he
    · subst he
      have hrest : markConsumed e0.id rest = rest := by
        apply markConsumed_of_ids_ne
        intro x hx hxe
        exact hnd2.1 (hxe ▸ List.mem_map_of_mem DMEntry.id hx)
      simp only [markConsumed, List.map_cons, if_pos rfl]
      rw [show List.map (fun x => if x.id = e0.id then { x with consumed := true } else x) rest =
        markConsumed e0.id rest from rfl, hrest]
      unfold countQueued
      rw [List.filter_cons, List.filter_cons]
      simp [queuedFor_flip_false, hq]
    · have hae : a.id ≠ e0.id := by
        intro hcontra
        exact hnd2.1 (hcontra ▸ List.mem_map_of_mem DMEntry.id he)
      simp only [markConsumed, List.map_cons, hae, if_false]
      rw [show List.map (fun x => if x.id = e0.id then { x with consumed := true } else x) rest =
        markConsumed e0.id rest from rfl]
      unfold countQueued
      rw [List.filter_cons, List.filter_cons]
      have hrec := ih hnd2.2 he hq
      unfold countQueued at hrec
      by_cases hqa : queuedFor d a = true <;> simp [hqa] <;> omega

theorem consumeOldest_of_empty {d : String} {store : List DMEntry}
    (h : countQueued d store = 0) : consumeOldest d store = (none, store) := by
  unfold consumeOldest
  rw [countQueued_eq_zero_iff.mp h]

theorem consumeOldest_of_oldest {d : String} {store : List DMEntry}
    {e0 : DMEntry} (h : oldestQueued d store = some e0) :
    consumeOldest d store =
      (some { e0 with consumed := true }, markConsumed e0.id store) := by
  unfold consumeOldest
  rw [h]

theorem queued_consumed_false {d : String} {e : DMEntry}
    (h : queuedFor d e = true) : e.consumed = false := by
  unfold queuedFor at h
  rcases Bool.and_eq_true_iff.mp h with ⟨_, h2⟩
  exact Bool.not_eq_true' .. ▸ h2

/-- The heart of the mailbox analysis: running `n` serialised consume-polls
against a store with `countQueued d store ≤ n` queued entries yields exactly
`countQueued d store` entry results with pairwise distinct `_id`s (never an
id that was already fully consumed), `n - countQueued d store` empty
results, and every returned entry is the consumed copy of an entry that was
queued in the starting store. -/
theorem runConsumes_spec (d : String) :
    ∀ (n : Nat) (store : List DMEntry), (idsOf store).Nodup →
      countQueued d store ≤ n →
      ((runConsumes d n store).1.reduceOption.length = countQueued d store) ∧
      ((runConsumes d n store).1.count none = n - countQueued d store) ∧
      ((runConsumes d n store).1.reduceOption.map DMEntry.id).Nodup ∧
      (∀ i, consumedById i store →
        ∀ e ∈ (runConsumes d n store).1.reduceOption, e.id ≠ i) ∧
      (∀ e ∈ (runConsumes d n store).1.reduceOption,
        ∃ e0 ∈ store, queuedFor d e0 = true ∧
          e = { e0 with consumed := true }) := by
  intro n
  induction n with
  | zero =>
    intro store _ hcount
    have h0 : countQueued d store = 0 := Nat.le_zero.mp hcount
    simp [runConsumes, h0]
  | succ n ih =>
    intro store hnd hcount
    by_cases h0 : countQueued d store = 0
    · have hco : consumeOldest d store = (none, store) := consumeOldest_of_empty h0
      have hrun : (runConsumes d (n + 1) store).1 =
          none :: (runConsumes d n store).1 := by
        simp [runConsumes, hco]
      rcases ih store hnd (h0 ▸ Nat.zero_le n) with ⟨h1, h2, h3, h4, h5⟩
      rw [hrun]
      refine ⟨?_, ?_, ?_, ?_, ?_⟩
      · rw [List.reduceOption_cons_of_none]
        exact h1
      · rw [List.count_cons_self, h2, h0]
        omega
      · rw [List.reduceOption_cons_of_none]
        exact h3
      · intro i hc e he
        rw [List.reduceOption_cons_of_none] at he
        exact h4 i hc e he
      · intro e he
        rw [List.reduceOption_cons_of_none] at he
        exact h5 e he
    · obtain ⟨e0, he0⟩ : ∃ e0, oldestQueued d store = some e0 := by
        cases he : oldestQueued d store with
        | none => exact absurd (countQueued_eq_zero_iff.mpr he) h0
        | some e0 => exact ⟨e0, rfl⟩
      rcases oldestQueued_spec he0 with ⟨hmem, hq, _⟩
      have hco := consumeOldest_of_oldest he0
      have hnd2 : (idsOf (markConsumed e0.id store)).Nodup := by
        rw [idsOf_markConsumed]
        exact hnd
      have hcnt2 : countQueued d (markConsumed e0.id store) + 1 =
          countQueued d store := countQueued_markConsumed hnd hmem hq
      have hle2 : countQueued d (markConsumed e0.id store) ≤ n := by omega
      rcases ih (markConsumed e0.id store) hnd2 hle2 with ⟨h1, h2, h3, h4, h5⟩
      have hrun : (runConsumes d (n + 1) store).1 =
          some { e0 with consumed := true } ::
            (runConsumes d n (markConsumed e0.id store)).1 := by
        simp [runConsumes, hco]
      rw [hrun]
      refine ⟨?_, ?_, ?_, ?_, ?_⟩
      · rw [List.reduceOption_cons_of_some, List.length_cons, h1]
        omega
      · rw [List.count_cons_of_ne (by simp) _, h2]
        omega
      · rw [List.reduceOption_cons_of_some, List.map_cons, List.nodup_cons]
        constructor
        · rw [List.mem_map]
          rintro ⟨e2, he2, hid⟩
          exact h4 e0.id (consumedById_markConsumed_self e0.id store) e2 he2 hid
        · exact h3
      · intro i hc e he
        rw [List.reduceOption_cons_of_some] at he
        rcases List.mem_cons.mp he with he | he
        · rw [he]
          show e0.id ≠ i
          intro hcontra
          have := hc e0 hmem hcontra
          rw [queued_consumed_false hq] at this
          exact Bool.false_ne_true this
        · exact h4 i (consumedById_markConsumed_mono e0.id hc) e he
      · intro e he
        rw [List.reduceOption_cons_of_some] at he
        rcases List.mem_cons.mp he with he | he
        · exact ⟨e0, hmem, hq, he⟩
        · rcases h5 e he with ⟨e1, he1, hq1, heq⟩
          exact ⟨e1, mem_of_queued_mem_markConsumed he1 hq1, hq1, heq⟩

theorem countQueued_append_queued {d : String} {store : List DMEntry}
    {eN : DMEntry} (hq : queuedFor d eN = true) :
    countQueued d (store ++ [eN]) = countQueued d store + 1 := by
  unfold countQueued
  rw [List.filter_append, List.length_append]
  simp [hq]

theorem oldestQueued_append_single {d : String} {store : List DMEntry}
    (h : ∀ e ∈ store, queuedFor d e = false) {eN : DMEntry}
    (hq : queuedFor d eN = true) :
    oldestQueued d (store ++ [eN]) = some eN := by
  induction store with
  | nil => simp [oldestQueued, hq]
  | cons a rest ih =>
    have ha : queuedFor d a = false := h a (List.mem_cons_self a rest)
    have htail := ih (fun e he => h e (List.mem_cons_of_mem a he))
    simpa [oldestQueued, ha] using htail

theorem pollHandler_consume_of_empty {d : String} {store : List DMEntry}
    (h : countQueued d store = 0) :
    pollHandler d false store = (204, none, store) := by
  simp [pollHandler, consumeOldest_of_empty h]

theorem pollHandler_peek_of_empty {d : String} {store : List DMEntry}
    (h : countQueued d store = 0) :
    pollHandler d true store = (204, none, store) := by
  simp [pollHandler, countQueued_eq_zero_iff.mp h]

/-- C1: with `M` entries queued (`consumed=false`) for one device and
`N > M` concurrent consume-polls — which the atomic `findOneAndUpdate`
serialises into `N` successive atomic consume steps — exactly `M` polls
return entries, those entries have pairwise distinct ids (no entry reaches
two polls) and each is the consumed copy of a distinct originally queued
entry, and the other `N − M` polls return "none", which the route maps to
HTTP 204. -/
theorem concurrent_consume_polls_exactly_once (d : String)
    (store : List DMEntry) (M N : Nat) (hnd : (idsOf store).Nodup)
    (hM : countQueued d store = M) (hMN : M < N) :
    ((runConsumes d N store).1.reduceOption.length = M) ∧
    ((runConsumes d N store).1.reduceOption.map DMEntry.id).Nodup ∧
    ((runConsumes d N store).1.count none = N - M) ∧
    (∀ e ∈ (runConsumes d N store).1.reduceOption,
      ∃ e0 ∈ store, queuedFor d e0 = true ∧
        e = { e0 with consumed := true }) ∧
    (∀ st2 : List DMEntry, countQueued d st2 = 0 →
      pollHandler d false st2 = (204, none, st2)) := by
  subst hM
  rcases runConsumes_spec d N store hnd (Nat.le_of_lt hMN) with
    ⟨h1, h2, h3, _, h5⟩
  exact ⟨h1, h3, h2, h5, fun st2 h => pollHandler_consume_of_empty h⟩

/-- Witness for C1: two entries queued for `"dev"` (one foreign, one already
consumed alongside), three polls — two distinct entries come back and one
poll gets nothing. -/
theorem concurrent_consume_polls_exactly_once_witness :
    ((runConsumes "dev" 3
        [⟨1, "dev", 10, "p1", false⟩, ⟨2, "dev", 20, "p2", false⟩,
         ⟨3, "other", 5, "q", false⟩, ⟨4, "dev", 1, "old", true⟩]).1.reduceOption.length = 2) ∧
    ((runConsumes "dev" 3
        [⟨1, "dev", 10, "p1", false⟩, ⟨2, "dev", 20, "p2", false⟩,
         ⟨3, "other", 5, "q", false⟩, ⟨4, "dev", 1, "old", true⟩]).1.reduceOption.map DMEntry.id).Nodup ∧
    ((runConsumes "dev" 3
        [⟨1, "dev", 10, "p1", false⟩, ⟨2, "dev", 20, "p2", false⟩,
         ⟨3, "other", 5, "q", false⟩, ⟨4, "dev", 1, "old", true⟩]).1.count none = 3 - 2) ∧
    (∀ e ∈ (runConsumes "dev" 3
        [⟨1, "dev", 10, "p1", false⟩, ⟨2, "dev", 20, "p2", false⟩,
         ⟨3, "other", 5, "q", false⟩, ⟨4, "dev", 1, "old", true⟩]).1.reduceOption,
      ∃ e0 ∈ [⟨1, "dev", 10, "p1", false⟩, ⟨2, "dev", 20, "p2", false⟩,
              ⟨3, "other", 5, "q", false⟩, ⟨4, "dev", 1, "old", true⟩],
        queuedFor "dev" e0 = true ∧ e = { e0 with consumed := true }) ∧
    (∀ st2 : List DMEntry, countQueued "dev" st2 = 0 →
      pollHandler "dev" false st2 = (204, none, st2)) :=
  concurrent_consume_polls_exactly_once "dev"
    [⟨1, "dev", 10, "p1", false⟩, ⟨2, "dev", 20, "p2", false⟩,
     ⟨3, "other", 5, "q", false⟩, ⟨4, "dev", 1, "old", true⟩] 2 3
    (by unfold idsOf; decide) (by decide) (by decide)

/-- C2: enqueue `P` for `D` (no prior queued entry for `D`, fresh id), then
consume-poll: the poll returns 200 with the entry — `params_to_send = P`,
`consumed = true` — a second consume-poll returns "none" as 204, both modes
return 204 on any store with nothing queued for `D`, and every successful
consume returns the consumed copy of a queued entry of minimal timestamp. -/
theorem enqueue_then_consume_roundtrip (D : String) (P : Params)
    (id now : Nat) (store : List DMEntry) (hnd : (idsOf store).Nodup)
    (hD : countQueued D store = 0) (hid : id ∉ idsOf store) :
    (∃ e store2,
      pollHandler D false (enqueueEntry D P id now store) =
        (200, some e, store2) ∧
      e.params_to_send = P ∧ e.consumed = true ∧ e.device_unique_id = D ∧
      pollHandler D false store2 = (204, none, store2) ∧
      pollHandler D true store2 = (204, none, store2)) ∧
    (∀ st2 : List DMEntry, countQueued D st2 = 0 →
      pollHandler D false st2 = (204, none, st2) ∧
      pollHandler D true st2 = (204, none, st2)) ∧
    (∀ (st2 st3 : List DMEntry) (e : DMEntry),
      pollHandler D false st2 = (200, some e, st3) →
      ∃ e0 ∈ st2, queuedFor D e0 = true ∧ e = { e0 with consumed := true } ∧
        ∀ x ∈ st2, queuedFor D x = true → e0.timestamp ≤ x.timestamp) := by
  have hqN : queuedFor D (⟨id, D, now, P, false⟩ : DMEntry) = true := by
    simp [queuedFor]
  have hall : ∀ e ∈ store, queuedFor D e = false := by
    intro e he
    have := countQueued_eq_zero_iff.mp hD
    exact oldestQueued_eq_none_iff.mp this e he
  have hold : oldestQueued D (enqueueEntry D P id now store) =
      some ⟨id, D, now, P, false⟩ := by
    unfold enqueueEntry
    exact oldestQueued_append_single hall hqN
  have hnd1 : (idsOf (enqueueEntry D P id now store)).Nodup := by
    unfold enqueueEntry idsOf
    rw [List.map_append]
    simp only [List.map_cons, List.map_nil]
    rw [List.nodup_append]
    refine ⟨hnd, List.nodup_singleton id, ?_⟩
    intro a ha hb
    simp only [List.mem_singleton] at hb
    exact hid (hb ▸ ha)
  have hcnt1 : countQueued D (enqueueEntry D P id now store) = 1 := by
    unfold enqueueEntry
    rw [countQueued_append_queued hqN, hD]
  have hmemN : (⟨id, D, now, P, false⟩ : DMEntry) ∈ enqueueEntry D P id now store := by
    unfold enqueueEntry
    exact List.mem_append_right store (List.mem_singleton.mpr rfl)
  have hcnt2 : countQueued D
      (markConsumed id (enqueueEntry D P id now store)) = 0 := by
    have h3 : countQueued D (markConsumed id (enqueueEntry D P id now store)) + 1 =
        countQueued D (enqueueEntry D P id now store) :=
      countQueued_markConsumed hnd1 hmemN hqN
    omega
  refine ⟨?_, ?_, ?_⟩
  · refine ⟨(⟨id, D, now, P, true⟩ : DMEntry),
      markConsumed id (enqueueEntry D P id now store), ?_, rfl, rfl, rfl, ?_, ?_⟩
    · simp [pollHandler, consumeOldest_of_oldest hold]
    · exact pollHandler_consume_of_empty hcnt2
    · exact pollHandler_peek_of_empty hcnt2
  · intro st2 h
    exact ⟨pollHandler_consume_of_empty h, pollHandler_peek_of_empty h⟩
  · intro st2 st3 e hpoll
    cases hosel : oldestQueued D st2 with
    | none =>
      rw [show pollHandler D false st2 = (204, none, st2) from by
        simp [pollHandler, consumeOldest, hosel]] at hpoll
      exact absurd (show (204 : Nat) = 200 from congrArg (fun t => t.1) hpoll)
        (by decide)
    | some e0 =>
      rcases oldestQueued_spec hosel with ⟨hm, hq, hmin⟩
      have : pollHandler D false st2 =
          (200, some { e0 with consumed := true }, markConsumed e0.id st2) := by
        simp [pollHandler, consumeOldest_of_oldest hosel]
      rw [this] at hpoll
      have he : some { e0 with consumed := true } = some e :=
        congrArg (fun t => t.2.1) hpoll
      exact ⟨e0, hm, hq, (Option.some_inj.mp he).symm, hmin⟩

/-- Witness for C2: enqueue `"set-fan"` for `"pico-1"` on an empty store and
poll it back. -/
theorem enqueue_then_consume_roundtrip_witness :
    (∃ e store2,
      pollHandler "pico-1" false (enqueueEntry "pico-1" "set-fan" 1 100 []) =
        (200, some e, store2) ∧
      e.params_to_send = "set-fan" ∧ e.consumed = true ∧
      e.device_unique_id = "pico-1" ∧
      pollHandler "pico-1" false store2 = (204, none, store2) ∧
      pollHandler "pico-1" true store2 = (204, none, store2)) ∧
    (∀ st2 : List DMEntry, countQueued "pico-1" st2 = 0 →
      pollHandler "pico-1" false st2 = (204, none, st2) ∧
      pollHandler "pico-1" true st2 = (204, none, st2)) ∧
    (∀ (st2 st3 : List DMEntry) (e : DMEntry),
      pollHandler "pico-1" false st2 = (200, some e, st3) →
      ∃ e0 ∈ st2, queuedFor "pico-1" e0 = true ∧
        e = { e0 with consumed := true } ∧
        ∀ x ∈ st2, queuedFor "pico-1" x = true →
          e0.timestamp ≤ x.timestamp) :=
  enqueue_then_consume_roundtrip "pico-1" "set-fan" 1 100 []
    (by unfold idsOf; decide) (by decide) (by unfold idsOf; decide)

/-- C8: on a store with at least one queued entry for `d`, a peek-poll
returns 200 with the oldest queued entry exactly as stored — `consumed`
still `false` — and leaves the store untouched, so any number of repeated
peeks all return that same entry. -/
theorem peek_returns_oldest_unchanged (d : String) (store : List DMEntry)
    (h : 1 ≤ countQueued d store) :
    ∃ e, oldestQueued d store = some e ∧
      pollHandler d true store = (200, some e, store) ∧
      e.consumed = false ∧ e ∈ store ∧ queuedFor d e = true ∧
      (∀ x ∈ store, queuedFor d x = true → e.timestamp ≤ x.timestamp) ∧
      (∀ n, repeatPeek d store n = List.replicate n (200, some e)) := by
  obtain ⟨e, he⟩ : ∃ e, oldestQueued d store = some e := by
    cases hc : oldestQueued d store with
    | none =>
      have := countQueued_eq_zero_iff.mpr hc
      omega
    | some e => exact ⟨e, rfl⟩
  rcases oldestQueued_spec he with ⟨hm, hq, hmin⟩
  have hpoll : pollHandler d true store = (200, some e, store) := by
    simp [pollHandler, he]
  refine ⟨e, he, hpoll, queued_consumed_false hq, hm, hq, hmin, ?_⟩
  intro n
  induction n with
  | zero => rfl
  | succ n ihn =>
    have hstep : repeatPeek d store (n + 1) =
        ((pollHandler d true store).1, (pollHandler d true store).2.1) ::
          repeatPeek d (pollHandler d true store).2.2 n := rfl
    rw [List.replicate_succ, hstep, hpoll]
    exact congrArg (List.cons (200, some e)) ihn

/-- Witness for C8: a single queued entry for `"dev"` is peeked over and
over without being consumed. -/
theorem peek_returns_oldest_unchanged_witness :
    ∃ e, oldestQueued "dev" [⟨1, "dev", 5, "p", false⟩] = some e ∧
      pollHandler "dev" true [⟨1, "dev", 5, "p", false⟩] =
        (200, some e, [⟨1, "dev", 5, "p", false⟩]) ∧
      e.consumed = false ∧ e ∈ [⟨1, "dev", 5, "p", false⟩] ∧
      queuedFor "dev" e = true ∧
      (∀ x ∈ [⟨1, "dev", 5, "p", false⟩], queuedFor "dev" x = true →
        e.timestamp ≤ x.timestamp) ∧
      (∀ n, repeatPeek "dev" [⟨1, "dev", 5, "p", false⟩] n =
        List.replicate n (200, some e)) :=
  peek_returns_oldest_unchanged "dev" [⟨1, "dev", 5, "p", false⟩] (by decide)

/-- C6 fails as stated on `src/app.js`: its `POST /api/device-message`
handler checks the `Device` collection and refuses an unregistered device
with 403 instead of creating the entry. Concretely, with no registered
devices a valid request for `"pico-x"` yields `(403, no id, unchanged
store)`, not 201. -/
theorem enqueue_registration_check_counterexample :
    deviceMessagePostApp [] (BodyField.str "pico-x") (ParamsField.val "cmd")
        7 100 [] = (403, none, []) := rfl

/-- C6 amended: the `src/unnamed/part_000` handler performs no
registration or prior-ingest check — any valid `(device_unique_id, params)`
pair yields 201 and a new `consumed=false` entry with the fresh id — while
the `src/app.js` handler additionally requires `device_unique_id` to exist
in the `Device` collection, returning 201 with the same created entry when
registered and 403 with no mutation when not. -/
theorem enqueue_succeeds_unchecked_only_in_newer_server (device : String)
    (p : Params) (id now : Nat) (store : List DMEntry)
    (registered : List String) (hdev : device ≠ "") :
    deviceMessagePost (BodyField.str device) (ParamsField.val p) id now store =
      (201, some id, store ++ [⟨id, device, now, p, false⟩]) ∧
    (device ∈ registered →
      deviceMessagePostApp registered (BodyField.str device)
          (ParamsField.val p) id now store =
        (201, some id, store ++ [⟨id, device, now, p, false⟩])) ∧
    (device ∉ registered →
      deviceMessagePostApp registered (BodyField.str device)
          (ParamsField.val p) id now store = (403, none, store)) := by
  have hv : validDevice (BodyField.str device) = some device := by
    simp [validDevice, hdev]
  refine ⟨?_, ?_, ?_⟩
  · simp [deviceMessagePost, hv, enqueueEntry]
  · intro hreg
    simp [deviceMessagePostApp, hv, hreg, enqueueEntry]
  · intro hreg
    simp [deviceMessagePostApp, hv, hreg, enqueueEntry]

/-- Witness for the amended C6 at a concrete device, registered set and
store. -/
theorem enqueue_succeeds_unchecked_only_in_newer_server_witness :
    deviceMessagePost (BodyField.str "pico-1") (ParamsField.val "cmd")
        7 100 [] = (201, some 7, [] ++ [⟨7, "pico-1", 100, "cmd", false⟩]) ∧
    ("pico-1" ∈ ["pico-1"] →
      deviceMessagePostApp ["pico-1"] (BodyField.str "pico-1")
          (ParamsField.val "cmd") 7 100 [] =
        (201, some 7, [] ++ [⟨7, "pico-1", 100, "cmd", false⟩])) ∧
    ("pico-1" ∉ ["pico-1"] →
      deviceMessagePostApp ["pico-1"] (BodyField.str "pico-1")
          (ParamsField.val "cmd") 7 100 [] = (403, none, [])) :=
  enqueue_succeeds_unchecked_only_in_newer_server "pico-1" "cmd" 7 100 []
    ["pico-1"] (by decide)

/-! ### Live devices listing -/

theorem liveView_some_spec {now ttl : Nat} {seen : List (String × Nat)}
    {p : String × Sample} {v : PresenceView}
    (h : liveView now ttl seen p = some v) :
    v.device_unique_id = p.1 ∧ v.last = p.2 ∧
      v.lastSeenMs = (getAssoc p.1 seen).getD 0 ∧
      v.ageMs = now - v.lastSeenMs ∧ v.ageMs ≤ ttl := by
  unfold liveView at h
  by_cases hc : now - (getAssoc p.1 seen).getD 0 ≤ ttl
  · simp only [hc, if_true, Option.some_inj] at h
    subst h
    exact ⟨rfl, rfl, rfl, rfl, hc⟩
  · simp [hc] at h

theorem liveView_some_of_le {now ttl : Nat} {seen : List (String × Nat)}
    (p : String × Sample)
    (hc : now - (getAssoc p.1 seen).getD 0 ≤ ttl) :
    liveView now ttl seen p =
      some { device_unique_id := p.1,
             lastSeenMs := (getAssoc p.1 seen).getD 0,
             ageMs := now - (getAssoc p.1 seen).getD 0, last := p.2 } := by
  unfold liveView
  simp [hc]

theorem nodup_devices_filterMap_liveView {now ttl : Nat}
    {seen : List (String × Nat)} :
    ∀ {samples : List (String × Sample)}, NodupKeys samples →
      ((samples.filterMap (liveView now ttl seen)).map
        PresenceView.device_unique_id).Nodup := by
  intro samples
  induction samples with
  | nil => intro _; simp
  | cons p rest ih =>
    intro hnd
    have hnd2 : p.1 ∉ rest.map Prod.fst ∧ NodupKeys rest := by
      simpa [NodupKeys] using hnd
    rw [List.filterMap_cons]
    cases hv : liveView now ttl seen p with
    | none => exact ih hnd2.2
    | some v =>
      rw [List.map_cons, List.nodup_cons]
      refine ⟨?_, ih hnd2.2⟩
      rw [List.mem_map]
      rintro ⟨w, hw, hweq⟩
      rcases List.mem_filterMap.mp hw with ⟨q, hq, hvq⟩
      have hwdev := (liveView_some_spec hvq).1
      have hvdev := (liveView_some_spec hv).1
      apply hnd2.1
      rw [← hvdev, ← hweq, hwdev]
      exact List.mem_map_of_mem Prod.fst hq

/-- C4: `/api/live-devices` returns one entry per tracked device whose age
`now - last_seen` is at most the TTL (the `age == ttl` boundary included),
each entry carrying the device id, its last-seen time
(`lastSeenByDevice.get(id) || 0`), its age, and its last sample, and the
response is sorted descending by last-seen. -/
theorem live_devices_within_ttl_sorted_desc (now ttl : Nat)
    (st : ServerState) (hnd : NodupKeys st.lastSampleByDevice) :
    ((liveDevices now ttl st).Pairwise
      (fun a b => b.lastSeenMs ≤ a.lastSeenMs)) ∧
    (((liveDevices now ttl st).map PresenceView.device_unique_id).Nodup) ∧
    (∀ dev sample, (dev, sample) ∈ st.lastSampleByDevice →
      (now - (getAssoc dev st.lastSeenByDevice).getD 0 ≤ ttl ↔
        ∃ v ∈ liveDevices now ttl st, v.device_unique_id = dev)) ∧
    (∀ v ∈ liveDevices now ttl st,
      (v.device_unique_id, v.last) ∈ st.lastSampleByDevice ∧
      v.lastSeenMs = (getAssoc v.device_unique_id st.lastSeenByDevice).getD 0 ∧
      v.ageMs = now - v.lastSeenMs ∧ v.ageMs ≤ ttl) := by
  have hmemiff : ∀ v : PresenceView,
      v ∈ liveDevices now ttl st ↔ v ∈ liveViews now ttl st := by
    intro v
    unfold liveDevices
    exact List.mem_insertionSort (descBy PresenceView.lastSeenMs)
  refine ⟨?_, ?_, ?_, ?_⟩
  · exact List.sorted_insertionSort (descBy PresenceView.lastSeenMs)
      (liveViews now ttl st)
  · have hperm : List.Perm (liveDevices now ttl st) (liveViews now ttl st) :=
      List.perm_insertionSort (descBy PresenceView.lastSeenMs)
        (liveViews now ttl st)
    exact (List.Perm.nodup_iff
      (List.Perm.map PresenceView.device_unique_id hperm)).mpr
      (nodup_devices_filterMap_liveView hnd)
  · intro dev sample hmem
    constructor
    · intro hc
      refine ⟨(⟨dev, (getAssoc dev st.lastSeenByDevice).getD 0,
          now - (getAssoc dev st.lastSeenByDevice).getD 0,
          sample⟩ : PresenceView), ?_, rfl⟩
      rw [hmemiff]
      unfold liveViews
      exact List.mem_filterMap.mpr
        ⟨(dev, sample), hmem, liveView_some_of_le (dev, sample) hc⟩
    · rintro ⟨v, hv, hdev⟩
      rw [hmemiff] at hv
      rcases List.mem_filterMap.mp hv with ⟨q, _, hvq⟩
      rcases liveView_some_spec hvq with ⟨h1, _, h3, h4, h5⟩
      rw [← hdev, h1, ← h3, ← h4]
      exact h5
  · intro v hv
    rw [hmemiff] at hv
    rcases List.mem_filterMap.mp hv with ⟨q, hq, hvq⟩
    rcases liveView_some_spec hvq with ⟨h1, h2, h3, h4, h5⟩
    refine ⟨?_, ?_, h4, h5⟩
    · rw [h1, h2]
      exact (show ((q.1, q.2) : String × Sample) = q by rfl) ▸ hq
    · rw [h1]
      exact h3

/-- Witness for C4 at a two-device tracker, one inside and one outside the
TTL window. -/
theorem live_devices_within_ttl_sorted_desc_witness :
    ((liveDevices 100 10 presenceStateA).Pairwise
      (fun a b => b.lastSeenMs ≤ a.lastSeenMs)) ∧
    (((liveDevices 100 10 presenceStateA).map
      PresenceView.device_unique_id).Nodup) ∧
    (∀ dev sample, (dev, sample) ∈ presenceStateA.lastSampleByDevice →
      (100 - (getAssoc dev presenceStateA.lastSeenByDevice).getD 0 ≤ 10 ↔
        ∃ v ∈ liveDevices 100 10 presenceStateA,
          v.device_unique_id = dev)) ∧
    (∀ v ∈ liveDevices 100 10 presenceStateA,
      (v.device_unique_id, v.last) ∈ presenceStateA.lastSampleByDevice ∧
      v.lastSeenMs =
        (getAssoc v.device_unique_id presenceStateA.lastSeenByDevice).getD 0 ∧
      v.ageMs = 100 - v.lastSeenMs ∧ v.ageMs ≤ 10) :=
  live_devices_within_ttl_sorted_desc 100 10 presenceStateA
    (by unfold NodupKeys presenceStateA; decide)

/-! ### Durable history endpoint -/

/-- C9 fails as stated: `?limit=0` parses to `Math.min(Number("0"), 500) =
0` (the truthy string `"0"` survives the `|| 50` default), MongoDB's
`.limit(0)` imposes no limit at all, and with 501 stored samples the
response carries all 501 of them — more than the claimed 500-sample cap. -/
theorem db_data_limit_zero_counterexample :
    500 < (dbData (some 0) none bigHistoryState).length := by
  have hd : dbData (some 0) none bigHistoryState =
      ((bigHistoryState.temperatures.filter (dbFilter none)).insertionSort
        (descBy Sample.timestamp)).reverse := by
    simp only [dbData]
    rw [if_pos (by decide)]
  have hf : List.filter (dbFilter none) bigHistoryState.temperatures =
      bigHistoryState.temperatures :=
    List.filter_eq_self.mpr (fun a _ => rfl)
  rw [hd, List.length_reverse,
    (List.perm_insertionSort (descBy Sample.timestamp) _).length_eq, hf]
  simp only [bigHistoryState, List.length_map, List.length_range]
  omega

/-- C9 amended: with a nonzero parsed limit (including the default 50 taken
when the query omits it), `/api/db-data` returns the most recent
`min(limit, 500)` matching samples — never more than 500 — while `limit=0`
reaches MongoDB `.limit(0)`, which means no limit, so the entire matching
history comes back; in every case the response is in chronological
(oldest-first) order and everything left out is no newer than anything
returned. -/
theorem db_data_recent_window_oldest_first (limitParam : Option Nat)
    (deviceId : Option String) (st : ServerState) :
    (limitParam.getD 50 ≠ 0 →
      (dbData limitParam deviceId st).length =
        min (min (limitParam.getD 50) 500)
          ((st.temperatures.filter (dbFilter deviceId)).length) ∧
      (dbData limitParam deviceId st).length ≤ 500) ∧
    (limitParam.getD 50 = 0 →
      (dbData limitParam deviceId st).length =
        (st.temperatures.filter (dbFilter deviceId)).length) ∧
    dbData none deviceId st = dbData (some 50) deviceId st ∧
    (dbData limitParam deviceId st).Pairwise
      (fun a b => a.timestamp ≤ b.timestamp) ∧
    ∃ rest,
      List.Perm ((dbData limitParam deviceId st).reverse ++ rest)
        (st.temperatures.filter (dbFilter deviceId)) ∧
      ∀ a ∈ rest, ∀ b ∈ dbData limitParam deviceId st,
        a.timestamp ≤ b.timestamp := by
  have hsorted := List.sorted_insertionSort (descBy Sample.timestamp)
    (st.temperatures.filter (dbFilter deviceId))
  have hperm := List.perm_insertionSort (descBy Sample.timestamp)
    (st.temperatures.filter (dbFilter deviceId))
  by_cases h0 : min (limitParam.getD 50) 500 = 0
  · have hd : dbData limitParam deviceId st =
        ((st.temperatures.filter (dbFilter deviceId)).insertionSort
          (descBy Sample.timestamp)).reverse := by
      simp only [dbData]
      rw [if_pos h0]
    have hz : limitParam.getD 50 = 0 := by
      rcases Nat.min_eq_zero_iff.mp h0 with h | h
      · exact h
      · omega
    refine ⟨?_, ?_, rfl, ?_, ?_⟩
    · intro hne
      exact absurd hz hne
    · intro _
      rw [hd, List.length_reverse, hperm.length_eq]
    · rw [hd, List.pairwise_reverse]
      exact hsorted
    · refine ⟨[], ?_, ?_⟩
      · rw [hd, List.reverse_reverse, List.append_nil]
        exact hperm
      · intro a ha
        simp at ha
  · have hd : dbData limitParam deviceId st =
        (((st.temperatures.filter (dbFilter deviceId)).insertionSort
          (descBy Sample.timestamp)).take
            (min (limitParam.getD 50) 500)).reverse := by
      simp only [dbData]
      rw [if_neg h0]
    refine ⟨?_, ?_, rfl, ?_, ?_⟩
    · intro _
      constructor
      · rw [hd, List.length_reverse, List.length_take, hperm.length_eq]
      · rw [hd, List.length_reverse, List.length_take]
        exact Nat.le_trans (Nat.min_le_left _ _) (Nat.min_le_right _ _)
    · intro hzz
      exfalso
      apply h0
      rw [hzz]
      exact Nat.zero_min 500
    · rw [hd, List.pairwise_reverse]
      exact List.Pairwise.sublist (List.take_sublist _ _) hsorted
    · refine ⟨((st.temperatures.filter (dbFilter deviceId)).insertionSort
        (descBy Sample.timestamp)).drop (min (limitParam.getD 50) 500), ?_, ?_⟩
      · rw [hd, List.reverse_reverse, List.take_append_drop]
        exact hperm
      · intro a ha b hb
        rw [hd, List.mem_reverse] at hb
        have hsp : List.Pairwise (descBy Sample.timestamp)
            (((st.temperatures.filter (dbFilter deviceId)).insertionSort
                (descBy Sample.timestamp)).take (min (limitParam.getD 50) 500) ++
              ((st.temperatures.filter (dbFilter deviceId)).insertionSort
                (descBy Sample.timestamp)).drop (min (limitParam.getD 50) 500)) := by
          rw [List.take_append_drop]
          exact hsorted
        exact (List.pairwise_append.mp hsp).2.2 b hb a ha

/-- Witness for the amended C9: `limit=3` keeps the 500-cap window, while
`limit=0` returns the entire 501-sample history. -/
theorem db_data_recent_window_oldest_first_witness :
    ((dbData (some 3) none bigHistoryState).length =
        min (min ((some 3 : Option Nat).getD 50) 500)
          ((bigHistoryState.temperatures.filter (dbFilter none)).length) ∧
      (dbData (some 3) none bigHistoryState).length ≤ 500) ∧
    (dbData (some 0) none bigHistoryState).length =
      (bigHistoryState.temperatures.filter (dbFilter none)).length :=
  ⟨(db_data_recent_window_oldest_first (some 3) none bigHistoryState).1
      (by decide),
   (db_data_recent_window_oldest_first (some 0) none bigHistoryState).2.1
      (by decide)⟩

/-! ### Presence tracker invariant -/

theorem getAssoc_isSome_iff_exists_mem {α : Type} {k : String}
    {m : List (String × α)} :
    (getAssoc k m).isSome = true ↔ ∃ v, (k, v) ∈ m := by
  constructor
  · intro h
    rcases Option.isSome_iff_exists.mp h with ⟨v, hv⟩
    exact ⟨v, getAssoc_mem hv⟩
  · rintro ⟨v, hv⟩
    exact getAssoc_isSome_of_mem hv

theorem mem_sweep_lastSeen_iff {now ttl : Nat} {st : ServerState}
    {d : String} {t : Nat} :
    (d, t) ∈ (sweep now ttl st).lastSeenByDevice ↔
      (d, t) ∈ st.lastSeenByDevice ∧ ¬ ttl < now - t := by
  simp [sweep, List.mem_filter, expiredAt]

theorem mem_sweep_lastSample_iff {now ttl : Nat} {st : ServerState}
    {d : String} {s : Sample} :
    (d, s) ∈ (sweep now ttl st).lastSampleByDevice ↔
      (d, s) ∈ st.lastSampleByDevice ∧
        ∀ t, (d, t) ∈ st.lastSeenByDevice → ¬ ttl < now - t := by
  show (d, s) ∈ st.lastSampleByDevice.filter _ ↔ _
  rw [List.mem_filter]
  constructor
  · rintro ⟨hmem, hpred⟩
    refine ⟨hmem, ?_⟩
    intro t ht hexp
    rw [Bool.not_eq_true', List.any_eq_false] at hpred
    exact absurd (by simp [expiredAt, hexp] : ((d, t).1 == (d, s).1 &&
      expiredAt now ttl (d, t).2) = true) (by simpa using hpred (d, t) ht)
  · rintro ⟨hmem, hall⟩
    refine ⟨hmem, ?_⟩
    rw [Bool.not_eq_true', List.any_eq_false]
    intro q hq hcontra
    rw [Bool.and_eq_true] at hcontra
    have hqd : q.1 = d := by simpa using hcontra.1
    have hq2 : (d, q.2) ∈ st.lastSeenByDevice := by
      have hqp : q = (d, q.2) := by
        cases q
        simp_all
      exact hqp ▸ hq
    have hexp : ttl < now - q.2 := by simpa [expiredAt] using hcontra.2
    exact hall q.2 hq2 hexp

theorem ingest_success_maps (maxBuf now : Nat) (st : ServerState)
    {req : IngestReq} {d : String} {tn : Int}
    (hv : validDevice req.device_unique_id = some d)
    (ht : req.temp = NumField.finite tn) :
    (ingest maxBuf now req st).2.lastSeenByDevice =
      setAssoc d now st.lastSeenByDevice ∧
    (ingest maxBuf now req st).2.lastSampleByDevice =
      setAssoc d ⟨d, tn, fanOrZero req.fan, modeOrNull req.mode, now⟩
        st.lastSampleByDevice := by
  unfold ingest
  rw [hv, ht]
  by_cases hm : st.mongoReady <;> simp [hm]

theorem ingest_invalid_state_eq {maxBuf now : Nat} {req : IngestReq}
    {st : ServerState}
    (h : validDevice req.device_unique_id = none ∨
      req.temp = NumField.notFinite) :
    (ingest maxBuf now req st).2 = st := by
  rcases h with h | h
  · simp [ingest, h]
  · cases hv : validDevice req.device_unique_id with
    | none => simp [ingest, hv]
    | some d => simp [ingest, hv, h]

/-- C10: after a record (the in-memory update of a `POST /api/ingest`) and
after a sweep pass, the tracker invariant still holds — both maps cover the
same device set and each last sample carries its own device key — and
per-device `last_seen` never decreases: a record overwrites it with the
current (not smaller) `now`, and a sweep only removes entries, never
altering a surviving value. -/
theorem tracker_invariant_and_monotonicity (maxBuf now ttl t : Nat)
    (req : IngestReq) (st : ServerState) (hinv : TrackerInv st)
    (hb : SeenBounded t st) (hle : t ≤ now) :
    (TrackerInv (ingest maxBuf now req st).2 ∧
     SeenBounded now (ingest maxBuf now req st).2 ∧
     (∀ k v, getAssoc k st.lastSeenByDevice = some v →
       ∃ w, getAssoc k (ingest maxBuf now req st).2.lastSeenByDevice =
         some w ∧ v ≤ w)) ∧
    (TrackerInv (sweep now ttl st) ∧
     SeenBounded t (sweep now ttl st) ∧
     (∀ k v, getAssoc k (sweep now ttl st).lastSeenByDevice = some v →
       getAssoc k st.lastSeenByDevice = some v)) := by
  obtain ⟨hnd1, hnd2, hsome, hdev⟩ := hinv
  constructor
  · -- the ingest half
    rcases hval : validDevice req.device_unique_id with _ | d
    on_goal 1 =>
      rw [show (ingest maxBuf now req st).2 = st from
        ingest_invalid_state_eq (Or.inl hval)]
      exact ⟨⟨hnd1, hnd2, hsome, hdev⟩,
        fun k v hk => Nat.le_trans (hb k v hk) hle,
        fun k v hk => ⟨v, hk, Nat.le_refl v⟩⟩
    rcases htmp : req.temp with tn | _
    on_goal 2 =>
      rw [show (ingest maxBuf now req st).2 = st from
        ingest_invalid_state_eq (Or.inr htmp)]
      exact ⟨⟨hnd1, hnd2, hsome, hdev⟩,
        fun k v hk => Nat.le_trans (hb k v hk) hle,
        fun k v hk => ⟨v, hk, Nat.le_refl v⟩⟩
    obtain ⟨hseen, hsample⟩ := ingest_success_maps maxBuf now st hval htmp
    refine ⟨⟨?_, ?_, ?_, ?_⟩, ?_, ?_⟩
    · rw [hseen]
      exact nodupKeys_setAssoc d now hnd1
    · rw [hsample]
      exact nodupKeys_setAssoc d _ hnd2
    · intro k
      rw [hseen, hsample, getAssoc_setAssoc, getAssoc_setAssoc]
      by_cases hk : d = k
      · simp [hk]
      · simp only [hk, if_false]
        exact hsome k
    · intro k s
      rw [hsample, getAssoc_setAssoc]
      by_cases hk : d = k
      · simp only [hk, if_true, Option.some_inj]
        intro hs
        rw [← hs]
      · simp only [hk, if_false]
        exact hdev k s
    · intro k v
      rw [hseen, getAssoc_setAssoc]
      by_cases hk : d = k
      · simp only [hk, if_true, Option.some_inj]
        intro hv2
        omega
      · simp only [hk, if_false]
        intro hv2
        exact Nat.le_trans (hb k v hv2) hle
    · intro k v hv2
      rw [hseen, getAssoc_setAssoc]
      by_cases hk : d = k
      · exact ⟨now, by simp [hk], Nat.le_trans (hb k v hv2) hle⟩
      · exact ⟨v, by simp only [hk, if_false]; exact hv2, Nat.le_refl v⟩
  · -- the sweep half
    have hseen' : ∀ {k : String} {v : Nat},
        getAssoc k (sweep now ttl st).lastSeenByDevice = some v →
          getAssoc k st.lastSeenByDevice = some v := by
      intro k v hk
      have hmem := getAssoc_mem hk
      rw [mem_sweep_lastSeen_iff] at hmem
      exact getAssoc_eq_some_of_mem hnd1 hmem.1
    have hndseen : NodupKeys (sweep now ttl st).lastSeenByDevice :=
      nodupKeys_filter _ hnd1
    have hndsample : NodupKeys (sweep now ttl st).lastSampleByDevice :=
      nodupKeys_filter _ hnd2
    refine ⟨⟨hndseen, hndsample, ?_, ?_⟩, ?_, fun k v hk => hseen' hk⟩
    · intro k
      apply Bool.eq_iff_iff.mpr
      rw [getAssoc_isSome_iff_exists_mem, getAssoc_isSome_iff_exists_mem]
      constructor
      · rintro ⟨v, hv⟩
        rw [mem_sweep_lastSeen_iff] at hv
        have hs1 : (getAssoc k st.lastSampleByDevice).isSome = true := by
          rw [← hsome k]
          exact getAssoc_isSome_of_mem hv.1
        rcases Option.isSome_iff_exists.mp hs1 with ⟨s, hs⟩
        refine ⟨s, ?_⟩
        rw [mem_sweep_lastSample_iff]
        refine ⟨getAssoc_mem hs, ?_⟩
        intro t2 ht2
        rw [nodupKeys_eq_of_mem hnd1 ht2 hv.1]
        exact hv.2
      · rintro ⟨s, hs⟩
        rw [mem_sweep_lastSample_iff] at hs
        have hs1 : (getAssoc k st.lastSeenByDevice).isSome = true := by
          rw [hsome k]
          exact getAssoc_isSome_of_mem hs.1
        rcases Option.isSome_iff_exists.mp hs1 with ⟨v, hv⟩
        have hvm := getAssoc_mem hv
        refine ⟨v, ?_⟩
        rw [mem_sweep_lastSeen_iff]
        exact ⟨hvm, hs.2 v hvm⟩
    · intro k s hk
      have hmem := getAssoc_mem hk
      rw [mem_sweep_lastSample_iff] at hmem
      exact hdev k s (getAssoc_eq_some_of_mem hnd2 hmem.1)
    · intro k v hk
      exact hb k v (hseen' hk)

/-- Witness for C10 on the two-device tracker state: a fresh ingest at time
200 and a sweep at time 100 both preserve the invariant. -/
theorem tracker_invariant_and_monotonicity_witness :
    (TrackerInv (ingest 50 200
        ⟨BodyField.str "pico-9", NumField.finite 22, NumField.notFinite,
          BodyField.missing⟩ presenceStateA).2 ∧
     SeenBounded 200 (ingest 50 200
        ⟨BodyField.str "pico-9", NumField.finite 22, NumField.notFinite,
          BodyField.missing⟩ presenceStateA).2 ∧
     (∀ k v, getAssoc k presenceStateA.lastSeenByDevice = some v →
       ∃ w, getAssoc k (ingest 50 200
          ⟨BodyField.str "pico-9", NumField.finite 22, NumField.notFinite,
            BodyField.missing⟩ presenceStateA).2.lastSeenByDevice =
         some w ∧ v ≤ w)) ∧
    (TrackerInv (sweep 200 10 presenceStateA) ∧
     SeenBounded 100 (sweep 200 10 presenceStateA) ∧
     (∀ k v, getAssoc k (sweep 200 10 presenceStateA).lastSeenByDevice =
         some v →
       getAssoc k presenceStateA.lastSeenByDevice = some v)) :=
  tracker_invariant_and_monotonicity 50 200 10 100
    ⟨BodyField.str "pico-9", NumField.finite 22, NumField.notFinite,
      BodyField.missing⟩ presenceStateA
    (by
      refine ⟨?_, ?_, ?_, ?_⟩
      · unfold NodupKeys presenceStateA
        decide
      · unfold NodupKeys presenceStateA
        decide
      · intro k
        unfold presenceStateA
        simp only [getAssoc]
        by_cases h1 : "old" = k
        · simp [h1]
        · by_cases h2 : "fresh" = k <;> simp [h1, h2]
      · intro k s hs
        unfold presenceStateA at hs
        simp only [getAssoc] at hs
        by_cases h1 : "old" = k
        · rw [if_pos h1] at hs
          rw [← Option.some_inj.mp hs]
          exact h1
        · rw [if_neg h1] at hs
          by_cases h2 : "fresh" = k
          · rw [if_pos h2] at hs
            rw [← Option.some_inj.mp hs]
            exact h2
          · rw [if_neg h2] at hs
            simp at hs)
    (by
      intro k v hk
      unfold presenceStateA at hk
      simp only [getAssoc] at hk
      by_cases h1 : "old" = k
      · rw [if_pos h1] at hk
        have := Option.some_inj.mp hk
        omega
      · rw [if_neg h1] at hk
        by_cases h2 : "fresh" = k
        · rw [if_pos h2] at hk
          have := Option.some_inj.mp hk
          omega
        · rw [if_neg h2] at hk
          simp at hk)
    (by omega)

end IotServer
